import Mathlib

/-!
Shallow embedding of the GitLab tag-deployment tracker (src/main.py) and
verification of its specification.

Modelling conventions:
- Dynamic GitLab API objects become explicit records (Project, Env, EnvDetail,
  Deployment, Tag).  Optional or possibly-falsy attributes become Option
  fields.
- Every external API call is a field of an ApiWorld record, returning
  Except String on the error side; an exception raised by the Python client
  corresponds to the Except.error case.
- Printing is modelled by returning the list of printed lines (all prints in
  the script go to standard output); a helper returns (value, printed lines).
- Calls to sys.exit(1) inside connect_to_gitlab, get_project and
  get_all_projects are modelled by mainRun returning exit code 1 at the
  corresponding call site; normal completion of main returns exit code 0.
- Python strings are Lean Strings; str.lower is modelled character-wise with
  Char.toLower (ASCII case folding) and the regex class d is modelled with
  Char.isDigit (ASCII digits).
-/

/-- Project record: display name, full path, and the name entry of the
namespace attribute (none when that attribute is absent or falsy).  The
field is called namespace_name because the attribute name used in the
source is a Lean keyword. -/
structure Project where
  name : String
  path_with_namespace : String
  namespace_name : Option String
  deriving Repr, DecidableEq

/-- Environment record as returned by project.environments.list. -/
structure Env where
  id : Nat
  name : String
  deriving Repr, DecidableEq

/-- Deployment record: creation timestamp and the deployed reference. -/
structure Deployment where
  created_at : String
  ref : String
  deriving Repr, DecidableEq

/-- Detailed environment record as returned by project.environments.get;
last_deployment is none when the attribute is absent or falsy. -/
structure EnvDetail where
  last_deployment : Option Deployment
  deriving Repr, DecidableEq

/-- Tag record.  commit = none models a tag whose commit attribute is absent
or falsy; commit = some none models a commit dict without a created_at key;
commit = some (some t) models a commit dict whose created_at entry is t. -/
structure Tag where
  name : String
  commit : Option (Option String)
  deriving Repr, DecidableEq

/-- Parsed command-line arguments (parse_arguments). -/
structure Args where
  url : String
  token : String
  project : Option String
  tag : Option String
  deriving Repr, DecidableEq

/-- Black-box GitLab API: one field per distinct API call the script makes.
Each field fixes the response the server would give to that call. -/
structure ApiWorld where
  auth : Except String Unit
  getProject : String → Except String Project
  listProjects : Except String (List Project)
  listEnvironments : Project → Except String (List Env)
  getEnvironment : Project → Nat → Except String EnvDetail
  listTags : Project → String → Except String (List Tag)

/-- Substring test of the production predicate used by the source:
the Python containment test of the literal production inside
env.name.lower(). -/
def isProductionName (s : String) : Bool :=
  decide ("production".data <:+: s.data.map Char.toLower)

/-- Embedding of get_production_environments: filters the listed environments
by isProductionName with an append loop, prints a notice when the result is
empty, and degrades an API error to the empty list after printing it. -/
def get_production_environments (p : Project) (resp : Except String (List Env)) :
    List Env × List String :=
  match resp with
  | .ok environments =>
    let production_envs :=
      environments.foldl (fun acc env =>
        if isProductionName env.name then acc ++ [env] else acc) []
    if production_envs.isEmpty then
      (production_envs,
        ["No production environments found for project " ++ p.path_with_namespace ++ "."])
    else
      (production_envs, [])
  | .error e =>
    ([], ["Error retrieving environments for project " ++ p.path_with_namespace ++ ": " ++ e])

/-- Embedding of get_environment_last_deployment: fetches the environment
detail and returns its last_deployment field; an API error is printed and
degrades to none. -/
def get_environment_last_deployment (w : ApiWorld) (p : Project) (environment_id : Nat) :
    Option Deployment × List String :=
  match w.getEnvironment p environment_id with
  | .ok env => (env.last_deployment, [])
  | .error e =>
    (none,
      ["Error retrieving last deployment for environment " ++ toString environment_id ++
        " in project " ++ p.path_with_namespace ++ ": " ++ e])

/-- First tag with the requested exact name decides the result: its commit
creation date when present, otherwise none (the remaining candidates are not
consulted, mirroring the early returns in the Python loop). -/
def findTagCreated (tag_name : String) : List Tag → Option String
  | [] => none
  | t :: rest =>
    if t.name = tag_name then
      match t.commit with
      | some (some c) => some c
      | _ => none
    else findTagCreated tag_name rest

/-- Embedding of get_tag_creation_date: server-side search (the listTags
response), then client-side exact-name scan; an API error is printed and
degrades to none. -/
def get_tag_creation_date (w : ApiWorld) (p : Project) (tag_name : String) :
    Option String × List String :=
  match w.listTags p tag_name with
  | .ok tags => (findTagCreated tag_name tags, [])
  | .error e =>
    (none, ["Error retrieving tag " ++ tag_name ++ " for project " ++
      p.path_with_namespace ++ ": " ++ e])

/-- Per-environment report entry built by get_deployment_info. -/
structure DeploymentInfo where
  env_name : String
  deploy_created_at : String
  tag_created_at : String
  deriving Repr, DecidableEq

/-- Embedding of get_deployment_info.  The tag field is set only when the
looked-up date is truthy (Python truthiness of an optional string), so an
empty-string result also leaves the field at its default. -/
def get_deployment_info (w : ApiWorld) (p : Project) (environment : Env) :
    DeploymentInfo × List String :=
  let result : DeploymentInfo := ⟨environment.name, "", ""⟩
  match get_environment_last_deployment w p environment.id with
  | (none, logs) => (result, logs)
  | (some deployment, logs1) =>
    let result := { result with deploy_created_at := deployment.created_at }
    let tagRes := get_tag_creation_date w p deployment.ref
    match tagRes.1 with
    | some t =>
      if t.isEmpty then (result, logs1 ++ tagRes.2)
      else ({ result with tag_created_at := t }, logs1 ++ tagRes.2)
    | none => (result, logs1 ++ tagRes.2)

/-- Row list built by format_csv_row before joining: group and project name
followed by an append loop pushing the three fields of each entry. -/
def csv_row_list (group project_name : String) (env_data : List DeploymentInfo) :
    List String :=
  env_data.foldl (fun row env =>
    row ++ [env.env_name, env.deploy_created_at, env.tag_created_at])
    [group, project_name]

/-- Comma join exactly as the join method of Python strings: no quoting, no
escaping. -/
def join_commas : List String → String
  | [] => ""
  | [s] => s
  | s :: rest => s ++ "," ++ join_commas rest

/-- Embedding of format_csv_row. -/
def format_csv_row (group project_name : String) (env_data : List DeploymentInfo) :
    String :=
  join_commas (csv_row_list group project_name env_data)

/-- Component matcher for the tag regex: one or more digits followed by a
literal dot; returns the remainder after the dot.  The greedy digit run
followed by a non-digit is takeWhile Char.isDigit. -/
def numThenDot (cs : List Char) : Option (List Char) :=
  let d := cs.takeWhile Char.isDigit
  let r := cs.dropWhile Char.isDigit
  if d.isEmpty then none
  else
    match r with
    | '.' :: rest => some rest
    | _ => none

/-- Final component of the tag regex: one or more digits followed by the end
anchor.  Per the semantics of the Python re module, the dollar anchor also
matches just before one trailing newline, hence the second case. -/
def numThenEnd (cs : List Char) : Bool :=
  let d := cs.takeWhile Char.isDigit
  let r := cs.dropWhile Char.isDigit
  if d.isEmpty then false
  else
    match r with
    | [] => true
    | ['\n'] => true
    | _ => false

/-- Character-level matcher for the anchored pattern v digits dot digits dot
digits followed by the end anchor. -/
def is_valid_chars (l : List Char) : Bool :=
  match l with
  | c :: cs =>
    if c = 'v' then
      match numThenDot cs with
      | some cs2 =>
        match numThenDot cs2 with
        | some cs3 => numThenEnd cs3
        | none => false
      | none => false
    else false
  | [] => false

/-- Embedding of is_valid_tag_format: the truth value of re.match with the
anchored pattern v, digits, dot, digits, dot, digits. -/
def is_valid_tag_format (tag : String) : Bool :=
  is_valid_chars tag.data

/-- Strict end-of-input check for the final component: digits then nothing. -/
def numThenStrictEnd (cs : List Char) : Bool :=
  let d := cs.takeWhile Char.isDigit
  let r := cs.dropWhile Char.isDigit
  if d.isEmpty then false
  else
    match r with
    | [] => true
    | _ => false

/-- Spec-side predicate, following the words of the spec for claim C5: the
ENTIRE string matches v digits dot digits dot digits, with no trailing
material at all.  Kept separate from is_valid_tag_format for the refinement
comparison. -/
def anchored_chars (l : List Char) : Bool :=
  match l with
  | c :: cs =>
    if c = 'v' then
      match numThenDot cs with
      | some cs2 =>
        match numThenDot cs2 with
        | some cs3 => numThenStrictEnd cs3
        | none => false
      | none => false
    else false
  | [] => false

/-- String-level form of the spec-side anchored matcher. -/
def anchored_full_match (tag : String) : Bool :=
  anchored_chars tag.data

/-- Nonempty run of ASCII digits. -/
def IsDigits (d : List Char) : Prop := d ≠ [] ∧ ∀ c ∈ d, c.isDigit = true

/-- Character-level statement that cs is exactly v d1 . d2 . d3 with the
three components nonempty digit runs. -/
def TagShape (cs : List Char) : Prop :=
  ∃ d1 d2 d3, IsDigits d1 ∧ IsDigits d2 ∧ IsDigits d3 ∧
    cs = 'v' :: (d1 ++ '.' :: (d2 ++ '.' :: d3))

/-- Exact CSV header line printed by main. -/
def headerLine : String :=
  "grupo,projeto,env_name1,deploy_created_at1,tag_created_at1,env_name2,deploy_created_at2,tag_created_at2,env_name3,deploy_created_at3,tag_created_at3,..."

/-- Per-project body of the loop in main: computes the group name, selects
production environments, gathers per-environment info, and yields the
printed log lines together with the CSV row to print, if any (none when the
project is skipped by continue or the env_data guard fails). -/
def processProject (w : ApiWorld) (p : Project) : List String × Option String :=
  let group := p.namespace_name.getD ""
  let envRes := get_production_environments p (w.listEnvironments p)
  let prod_envs := envRes.1
  if prod_envs.isEmpty then (envRes.2, none)
  else
    let pairs := prod_envs.map (get_deployment_info w p)
    let env_data := pairs.map Prod.fst
    let logs2 := pairs.flatMap Prod.snd
    if env_data.isEmpty then (envRes.2 ++ logs2, none)
    else (envRes.2 ++ logs2, some (format_csv_row group p.name env_data))

/-- Printed lines of the project loop, per-project logs then the row. -/
def runProjects (w : ApiWorld) (ps : List Project) : List String :=
  ps.flatMap (fun p =>
    let pr := processProject w p
    pr.1 ++ pr.2.toList)

/-- Embedding of main: connect (fatal on failure), print the header, resolve
the projects (fatal on failure), then run the loop.  Result: (all printed
lines in order, process exit status). -/
def mainRun (args : Args) (w : ApiWorld) : List String × Nat :=
  match w.auth with
  | .error e => (["Error connecting to GitLab: " ++ e], 1)
  | .ok _ =>
    match args.project with
    | some pid =>
      match w.getProject pid with
      | .error e => ([headerLine, "Error retrieving project: " ++ e], 1)
      | .ok p => (headerLine :: runProjects w [p], 0)
    | none =>
      match w.listProjects with
      | .error e => ([headerLine, "Error retrieving projects: " ++ e], 1)
      | .ok ps => (headerLine :: runProjects w ps, 0)

/-! Concrete API worlds used by counterexamples and witnesses. -/

/-- Sample project record. -/
def prj0 : Project := ⟨"proj", "grp/proj", some "grp"⟩

/-- World with a successful connection and no projects at all. -/
def wEmpty : ApiWorld where
  auth := .ok ()
  getProject := fun _ => .error "404"
  listProjects := .ok []
  listEnvironments := fun _ => .ok []
  getEnvironment := fun _ _ => .ok ⟨none⟩
  listTags := fun _ _ => .ok []

/-- World with one project whose only environment is not production-like. -/
def wNoProd : ApiWorld where
  auth := .ok ()
  getProject := fun _ => .ok prj0
  listProjects := .ok [prj0]
  listEnvironments := fun _ => .ok [⟨1, "staging"⟩]
  getEnvironment := fun _ _ => .ok ⟨none⟩
  listTags := fun _ _ => .ok []

/-- World with one project, two production-like environments, deployments
and a matching tag. -/
def wProd : ApiWorld where
  auth := .ok ()
  getProject := fun _ => .ok prj0
  listProjects := .ok [prj0]
  listEnvironments := fun _ => .ok [⟨1, "production"⟩, ⟨2, "old-production"⟩]
  getEnvironment := fun _ i => .ok ⟨some ⟨"2024-01-0" ++ toString i, "v1.0.0"⟩⟩
  listTags := fun _ _ => .ok [⟨"v1.0.0", some (some "2023-12-31")⟩]

/-- World in which every per-project API call fails. -/
def wErr : ApiWorld where
  auth := .ok ()
  getProject := fun _ => .ok prj0
  listProjects := .ok [prj0]
  listEnvironments := fun _ => .error "boom"
  getEnvironment := fun _ _ => .error "boom"
  listTags := fun _ _ => .error "boom"

/-! Helper lemmas about the embedded operations. -/

/-- Accumulating append loop equals filter. -/
lemma foldl_append_filter {α : Type} (pred : α → Bool) :
    ∀ (l acc : List α),
      l.foldl (fun a e => if pred e then a ++ [e] else a) acc = acc ++ l.filter pred := by
  intro l
  induction l with
  | nil => intro acc; simp
  | cons x xs ih =>
    intro acc
    simp only [List.foldl_cons, List.filter_cons]
    cases h : pred x <;> simp [h, ih, List.append_assoc]

/-- Accumulating triple-append loop equals flatMap. -/
lemma foldl_append_flat {α β : Type} (f : α → List β) :
    ∀ (l : List α) (acc : List β),
      l.foldl (fun r x => r ++ f x) acc = acc ++ l.flatMap f := by
  intro l
  induction l with
  | nil => intro acc; simp
  | cons x xs ih => intro acc; simp [ih, List.append_assoc]

/-- Value component of get_production_environments on a successful listing. -/
lemma get_production_environments_ok_fst (p : Project) (envs : List Env) :
    (get_production_environments p (Except.ok envs)).1
      = envs.filter (fun e => isProductionName e.name) := by
  simp only [get_production_environments, foldl_append_filter, List.nil_append]
  split <;> rfl

/-- Whenever the selection comes back empty, a message was printed. -/
lemma get_production_environments_empty_logs (p : Project) (r : Except String (List Env)) :
    (get_production_environments p r).1 = [] → (get_production_environments p r).2 ≠ [] := by
  intro h
  cases r with
  | error e => simp [get_production_environments]
  | ok envs =>
    simp only [get_production_environments] at h ⊢
    split <;> simp_all

/-- Unfolded form of csv_row_list. -/
lemma csv_row_list_eq (g pn : String) (e : List DeploymentInfo) :
    csv_row_list g pn e
      = [g, pn] ++ e.flatMap (fun i => [i.env_name, i.deploy_created_at, i.tag_created_at]) := by
  simp [csv_row_list, foldl_append_flat]

/-- Length of a flatMap of three-element lists. -/
lemma flat3_length {α β : Type} (a b c : α → β) :
    ∀ (l : List α), (l.flatMap (fun i => [a i, b i, c i])).length = 3 * l.length := by
  intro l
  induction l with
  | nil => simp
  | cons x xs ih => simp [ih]; ring

/-- Field count of a CSV row: two fixed fields plus three per environment. -/
lemma csv_row_list_length (g pn : String) (e : List DeploymentInfo) :
    (csv_row_list g pn e).length = 2 + 3 * e.length := by
  rw [csv_row_list_eq, List.length_append,
    flat3_length DeploymentInfo.env_name DeploymentInfo.deploy_created_at
      DeploymentInfo.tag_created_at]
  rfl

/-- takeWhile over an all-true block steps past the block. -/
lemma takeWhile_append_all {p : Char → Bool} :
    ∀ {d : List Char} (r : List Char), (∀ c ∈ d, p c = true) →
      (d ++ r).takeWhile p = d ++ r.takeWhile p := by
  intro d
  induction d with
  | nil => intro r _; simp
  | cons x xs ih =>
    intro r h
    have hx : p x = true := h x (by simp)
    simp only [List.cons_append, List.takeWhile_cons, hx, if_true]
    rw [ih r (fun c hc => h c (by simp [hc]))]

/-- dropWhile over an all-true block steps past the block. -/
lemma dropWhile_append_all {p : Char → Bool} :
    ∀ {d : List Char} (r : List Char), (∀ c ∈ d, p c = true) →
      (d ++ r).dropWhile p = r.dropWhile p := by
  intro d
  induction d with
  | nil => intro r _; simp
  | cons x xs ih =>
    intro r h
    have hx : p x = true := h x (by simp)
    simp only [List.cons_append, List.dropWhile_cons, hx, if_true]
    exact ih r (fun c hc => h c (by simp [hc]))

/-- Characterization of numThenDot: success means the input is a nonempty
digit run, a dot, then the returned remainder. -/
lemma numThenDot_eq_some {cs rest : List Char} :
    numThenDot cs = some rest ↔ ∃ d, IsDigits d ∧ cs = d ++ '.' :: rest := by
  constructor
  · intro h
    simp only [numThenDot] at h
    split at h
    · exact absurd h (by simp)
    · rename_i hne
      split at h
      · rename_i heq
        refine ⟨cs.takeWhile Char.isDigit, ⟨?_, fun c hc => List.mem_takeWhile_imp hc⟩, ?_⟩
        · intro hnil; rw [hnil] at hne; simp at hne
        · cases h
          conv_lhs => rw [← List.takeWhile_append_dropWhile Char.isDigit cs]
          rw [heq]
      · exact absurd h (by simp)
  · rintro ⟨d, ⟨hne, hdig⟩, rfl⟩
    have hdot : Char.isDigit '.' = false := by decide
    have ht : (d ++ '.' :: rest).takeWhile Char.isDigit = d := by
      rw [takeWhile_append_all _ hdig, List.takeWhile_cons, hdot]
      simp
    have hd : (d ++ '.' :: rest).dropWhile Char.isDigit = '.' :: rest := by
      rw [dropWhile_append_all _ hdig, List.dropWhile_cons, hdot]
      simp
    simp only [numThenDot, ht, hd]
    simp [List.isEmpty_iff, hne]

/-- Characterization of numThenEnd: a nonempty digit run followed by nothing
or by a single newline. -/
lemma numThenEnd_eq_true {cs : List Char} :
    numThenEnd cs = true ↔
      ∃ d r, IsDigits d ∧ (r = [] ∨ r = ['\n']) ∧ cs = d ++ r := by
  constructor
  · intro h
    simp only [numThenEnd] at h
    split at h
    · exact absurd h (by simp)
    · rename_i hne
      refine ⟨cs.takeWhile Char.isDigit, cs.dropWhile Char.isDigit,
        ⟨?_, fun c hc => List.mem_takeWhile_imp hc⟩, ?_,
        (List.takeWhile_append_dropWhile Char.isDigit cs).symm⟩
      · intro hnil; rw [hnil] at hne; simp at hne
      · split at h
        · rename_i heq; exact Or.inl heq
        · rename_i heq; exact Or.inr heq
        · exact absurd h (by simp)
  · rintro ⟨d, r, ⟨hne, hdig⟩, hr, rfl⟩
    have hnl : Char.isDigit '\n' = false := by decide
    have ht : (d ++ r).takeWhile Char.isDigit = d := by
      rw [takeWhile_append_all _ hdig]
      rcases hr with rfl | rfl <;> simp [List.takeWhile_cons, hnl]
    have hd : (d ++ r).dropWhile Char.isDigit = r := by
      rw [dropWhile_append_all _ hdig]
      rcases hr with rfl | rfl <;> simp [List.dropWhile_cons, hnl]
    simp only [numThenEnd, ht, hd]
    rcases hr with rfl | rfl <;> simp [List.isEmpty_iff, hne]

/-- Characterization of numThenStrictEnd: exactly a nonempty digit run. -/
lemma numThenStrictEnd_eq_true {cs : List Char} :
    numThenStrictEnd cs = true ↔ IsDigits cs := by
  constructor
  · intro h
    simp only [numThenStrictEnd] at h
    split at h
    · exact absurd h (by simp)
    · rename_i hne
      split at h
      · rename_i hdrop
        have hcs : cs = cs.takeWhile Char.isDigit := by
          conv_lhs => rw [← List.takeWhile_append_dropWhile Char.isDigit cs]
          rw [hdrop, List.append_nil]
        constructor
        · intro hnil; rw [hnil] at hne; simp at hne
        · intro c hc
          rw [hcs] at hc
          exact List.mem_takeWhile_imp hc
      · exact absurd h (by simp)
  · rintro ⟨hne, hdig⟩
    have ht : cs.takeWhile Char.isDigit = cs := by
      have := takeWhile_append_all (p := Char.isDigit) (d := cs) [] hdig
      simpa using this
    have hd : cs.dropWhile Char.isDigit = [] := by
      have := dropWhile_append_all (p := Char.isDigit) (d := cs) [] hdig
      simpa using this
    simp only [numThenStrictEnd, ht, hd]
    simp [List.isEmpty_iff, hne]

/-- Characterization of the character-level matcher: it accepts exactly the
anchored tag shape, possibly followed by one trailing newline. -/
lemma is_valid_chars_iff (l : List Char) :
    is_valid_chars l = true ↔
      (TagShape l ∨ ∃ cs, l = cs ++ ['\n'] ∧ TagShape cs) := by
  constructor
  · intro h
    cases l with
    | nil => simp [is_valid_chars] at h
    | cons c cs =>
      simp only [is_valid_chars] at h
      split at h
      · rename_i hv
        split at h
        · rename_i cs2 h1
          split at h
          · rename_i cs3 h2
            obtain ⟨d1, hd1, rfl⟩ := numThenDot_eq_some.mp h1
            obtain ⟨d2, hd2, rfl⟩ := numThenDot_eq_some.mp h2
            obtain ⟨d3, r, hd3, hr, rfl⟩ := numThenEnd_eq_true.mp h
            subst hv
            rcases hr with rfl | rfl
            · left
              exact ⟨d1, d2, d3, hd1, hd2, hd3, by simp⟩
            · right
              refine ⟨'v' :: (d1 ++ '.' :: (d2 ++ '.' :: d3)), ?_,
                d1, d2, d3, hd1, hd2, hd3, rfl⟩
              simp [List.append_assoc]
          · exact absurd h (by simp)
        · exact absurd h (by simp)
      · exact absurd h (by simp)
  · rintro (⟨d1, d2, d3, hd1, hd2, hd3, rfl⟩ | ⟨cs, rfl, d1, d2, d3, hd1, hd2, hd3, rfl⟩)
    · have h1 : numThenDot (d1 ++ '.' :: (d2 ++ '.' :: d3)) = some (d2 ++ '.' :: d3) :=
        numThenDot_eq_some.mpr ⟨d1, hd1, rfl⟩
      have h2 : numThenDot (d2 ++ '.' :: d3) = some d3 :=
        numThenDot_eq_some.mpr ⟨d2, hd2, rfl⟩
      have h3 : numThenEnd d3 = true :=
        numThenEnd_eq_true.mpr ⟨d3, [], hd3, Or.inl rfl, (List.append_nil d3).symm⟩
      simp [is_valid_chars, h1, h2, h3]
    · have hl : ('v' :: (d1 ++ '.' :: (d2 ++ '.' :: d3))) ++ ['\n']
          = 'v' :: (d1 ++ '.' :: (d2 ++ '.' :: (d3 ++ ['\n']))) := by
        simp [List.append_assoc]
      rw [hl]
      have h1 : numThenDot (d1 ++ '.' :: (d2 ++ '.' :: (d3 ++ ['\n'])))
          = some (d2 ++ '.' :: (d3 ++ ['\n'])) :=
        numThenDot_eq_some.mpr ⟨d1, hd1, rfl⟩
      have h2 : numThenDot (d2 ++ '.' :: (d3 ++ ['\n'])) = some (d3 ++ ['\n']) :=
        numThenDot_eq_some.mpr ⟨d2, hd2, rfl⟩
      have h3 : numThenEnd (d3 ++ ['\n']) = true :=
        numThenEnd_eq_true.mpr ⟨d3, ['\n'], hd3, Or.inr rfl, rfl⟩
      simp [is_valid_chars, h1, h2, h3]

/-- Characterization of the spec-side strict matcher: exactly the fully
anchored tag shape. -/
lemma anchored_chars_iff (l : List Char) :
    anchored_chars l = true ↔ TagShape l := by
  constructor
  · intro h
    cases l with
    | nil => simp [anchored_chars] at h
    | cons c cs =>
      simp only [anchored_chars] at h
      split at h
      · rename_i hv
        split at h
        · rename_i cs2 h1
          split at h
          · rename_i cs3 h2
            obtain ⟨d1, hd1, rfl⟩ := numThenDot_eq_some.mp h1
            obtain ⟨d2, hd2, rfl⟩ := numThenDot_eq_some.mp h2
            have hd3 := numThenStrictEnd_eq_true.mp h
            subst hv
            exact ⟨d1, d2, cs3, hd1, hd2, hd3, rfl⟩
          · exact absurd h (by simp)
        · exact absurd h (by simp)
      · exact absurd h (by simp)
  · rintro ⟨d1, d2, d3, hd1, hd2, hd3, rfl⟩
    have h1 : numThenDot (d1 ++ '.' :: (d2 ++ '.' :: d3)) = some (d2 ++ '.' :: d3) :=
      numThenDot_eq_some.mpr ⟨d1, hd1, rfl⟩
    have h2 : numThenDot (d2 ++ '.' :: d3) = some d3 :=
      numThenDot_eq_some.mpr ⟨d2, hd2, rfl⟩
    have h3 : numThenStrictEnd d3 = true := numThenStrictEnd_eq_true.mpr hd3
    simp [anchored_chars, h1, h2, h3]

/-- String-level corollary for anchored_full_match. -/
lemma anchored_full_match_iff (s : String) :
    anchored_full_match s = true ↔ TagShape s.data :=
  anchored_chars_iff s.data

/-- Any returned creation date comes from a candidate with the exact name. -/
lemma findTagCreated_some {tn v : String} :
    ∀ {tags : List Tag}, findTagCreated tn tags = some v →
      ∃ t ∈ tags, t.name = tn ∧ t.commit = some (some v) := by
  intro tags
  induction tags with
  | nil => intro h; simp [findTagCreated] at h
  | cons t rest ih =>
    intro h
    simp only [findTagCreated] at h
    split at h
    · rename_i hname
      split at h
      · rename_i c heq
        cases h
        exact ⟨t, by simp, hname, heq⟩
      · exact absurd h (by simp)
    · obtain ⟨u, hu, hn, hc⟩ := ih h
      exact ⟨u, by simp [hu], hn, hc⟩

/-- No exact-name candidate means no result. -/
lemma findTagCreated_none_of_no_match {tn : String} :
    ∀ {tags : List Tag}, (∀ t ∈ tags, t.name ≠ tn) → findTagCreated tn tags = none := by
  intro tags
  induction tags with
  | nil => intro _; rfl
  | cons t rest ih =>
    intro h
    simp only [findTagCreated]
    rw [if_neg (h t (by simp))]
    exact ih (fun u hu => h u (by simp [hu]))

/-- Matching candidates without a usable commit timestamp yield no result. -/
lemma findTagCreated_none_of_no_commit {tn : String} :
    ∀ {tags : List Tag},
      (∀ t ∈ tags, t.name = tn → ∀ c, t.commit ≠ some (some c)) →
      findTagCreated tn tags = none := by
  intro tags
  induction tags with
  | nil => intro _; rfl
  | cons t rest ih =>
    intro h
    simp only [findTagCreated]
    split
    · rename_i hname
      split
      · rename_i c heq
        exact absurd heq (h t (by simp) hname c)
      · rfl
    · exact ih (fun u hu => h u (by simp [hu]))

/-- Consumer-side splitting on commas, defined at the character level:
current field so far and the list of later fields. -/
def splitCommasAux : List Char → List Char × List (List Char)
  | [] => ([], [])
  | c :: cs =>
    let r := splitCommasAux cs
    if c = ',' then ([], r.1 :: r.2) else (c :: r.1, r.2)

/-- Fields obtained by splitting a character list at every comma. -/
def splitCommas (l : List Char) : List (List Char) :=
  (splitCommasAux l).1 :: (splitCommasAux l).2

/-- The number of later fields equals the number of commas. -/
lemma splitCommasAux_snd_length :
    ∀ (l : List Char), (splitCommasAux l).2.length = l.count ',' := by
  intro l
  induction l with
  | nil => rfl
  | cons c cs ih =>
    simp only [splitCommasAux, List.count_cons]
    by_cases h : c = ',' <;> simp [h, ih]

/-- Splitting yields one more field than there are commas. -/
lemma splitCommas_length (l : List Char) :
    (splitCommas l).length = l.count ',' + 1 := by
  simp [splitCommas, splitCommasAux_snd_length]

/-- Comma count of a joined list: the commas inside the fields plus the
separators. -/
lemma join_commas_count :
    ∀ (l : List String), l ≠ [] →
      (join_commas l).data.count ','
        = (l.map (fun s => s.data.count ',')).sum + (l.length - 1) := by
  intro l
  induction l with
  | nil => intro h; exact absurd rfl h
  | cons s rest ih =>
    intro _
    cases rest with
    | nil => simp [join_commas]
    | cons s2 rest2 =>
      have hdata : (join_commas (s :: s2 :: rest2)).data
          = s.data ++ [','] ++ (join_commas (s2 :: rest2)).data := by
        show ((s ++ "," ++ join_commas (s2 :: rest2))).data = _
        rw [String.data_append, String.data_append]
      rw [hdata]
      rw [List.count_append, List.count_append]
      rw [ih (by simp)]
      simp only [List.map_cons, List.sum_cons, List.length_cons]
      have : List.count ',' [','] = 1 := by decide
      rw [this]
      omega

/-! Claim theorems. -/

/-- C1: for every list of environments, the substring-mode production
selection returns exactly the environments whose lower-cased name contains
the substring production, in their original input order (it is the filter of
the input, hence a sublist), and returns the empty list when none match. -/
theorem spec_c1 (p : Project) (envs : List Env) :
    (get_production_environments p (Except.ok envs)).1
        = envs.filter (fun e => isProductionName e.name) ∧
    ((get_production_environments p (Except.ok envs)).1).Sublist envs ∧
    ((∀ e ∈ envs, isProductionName e.name = false) →
      (get_production_environments p (Except.ok envs)).1 = []) := by
  refine ⟨get_production_environments_ok_fst p envs, ?_, ?_⟩
  · rw [get_production_environments_ok_fst]
    exact List.filter_sublist envs
  · intro h
    rw [get_production_environments_ok_fst]
    exact List.filter_eq_nil_iff.mpr (fun e he => by simp [h e he])

/-- Witness for C1 at a concrete environment list with no match. -/
theorem spec_c1_witness :
    (get_production_environments prj0 (Except.ok [⟨1, "staging"⟩])).1 = [] :=
  (spec_c1 prj0 [⟨1, "staging"⟩]).2.2 (by decide)

/-- C5 counterexample: the validator accepts a tag with one trailing newline
(Python dollar-anchor semantics), which the entire string, as the claim
words it, does not match. -/
theorem spec_c5_counterexample :
    is_valid_tag_format "v1.2.3\n" = true ∧
    anchored_full_match "v1.2.3\n" = false ∧
    ¬ TagShape ("v1.2.3\n".data) := by
  refine ⟨by decide, by decide, ?_⟩
  intro h
  have h2 := (anchored_full_match_iff "v1.2.3\n").mpr h
  exact absurd h2 (by decide)

/-- C5 amended: the validator accepts a string iff it is v digits dot digits
dot digits, either exactly or followed by one trailing newline; the five
example classifications of the claim all hold. -/
theorem spec_c5_amended :
    (∀ s : String, is_valid_tag_format s = true ↔
        (TagShape s.data ∨ ∃ cs, s.data = cs ++ ['\n'] ∧ TagShape cs)) ∧
    is_valid_tag_format "v1.2.3" = true ∧
    is_valid_tag_format "1.2.3" = false ∧
    is_valid_tag_format "v1.2" = false ∧
    is_valid_tag_format "v1.2.3-rc1" = false ∧
    is_valid_tag_format "V1.2.3" = false :=
  ⟨fun s => is_valid_chars_iff s.data,
    by decide, by decide, by decide, by decide, by decide⟩

/-- Witness for C5 at the concrete valid example. -/
theorem spec_c5_witness : is_valid_tag_format "v1.2.3" = true :=
  spec_c5_amended.2.1

/-- C6: the tag correlator returns a creation timestamp only for a
server-returned candidate whose name equals the requested name exactly; with
no exact match, or no usable commit timestamp on the matching candidates,
the result is absent. -/
theorem spec_c6 (w : ApiWorld) (p : Project) (tn : String) :
    (∀ v, (get_tag_creation_date w p tn).1 = some v →
      ∃ tags, w.listTags p tn = Except.ok tags ∧
        ∃ t ∈ tags, t.name = tn ∧ t.commit = some (some v)) ∧
    (∀ tags, w.listTags p tn = Except.ok tags →
      (∀ t ∈ tags, t.name ≠ tn) →
      (get_tag_creation_date w p tn).1 = none) ∧
    (∀ tags, w.listTags p tn = Except.ok tags →
      (∀ t ∈ tags, t.name = tn → ∀ c, t.commit ≠ some (some c)) →
      (get_tag_creation_date w p tn).1 = none) := by
  refine ⟨?_, ?_, ?_⟩
  · intro v h
    cases hl : w.listTags p tn with
    | error e => simp [get_tag_creation_date, hl] at h
    | ok tags =>
      simp only [get_tag_creation_date, hl] at h
      exact ⟨tags, rfl, findTagCreated_some h⟩
  · intro tags hl hno
    simp only [get_tag_creation_date, hl]
    exact findTagCreated_none_of_no_match hno
  · intro tags hl hno
    simp only [get_tag_creation_date, hl]
    exact findTagCreated_none_of_no_commit hno

/-- Witness for C6 at a concrete world where the exact tag is found. -/
theorem spec_c6_witness :
    ∃ tags, wProd.listTags prj0 "v1.0.0" = Except.ok tags ∧
      ∃ t ∈ tags, t.name = "v1.0.0" ∧ t.commit = some (some "2023-12-31") :=
  (spec_c6 wProd prj0 "v1.0.0").1 "2023-12-31" (by decide)

/-- C7: every environment-detail, tag, or environment-list retrieval error
is logged and degrades to none or the empty list, indistinguishable from the
no-data case, and the run still completes with exit status 0. -/
theorem spec_c7 :
    (∀ (w : ApiWorld) (p : Project) (i : Nat) (e : String),
      w.getEnvironment p i = Except.error e →
        (get_environment_last_deployment w p i).1 = none ∧
        (get_environment_last_deployment w p i).2 ≠ []) ∧
    (∀ (w w2 : ApiWorld) (p : Project) (i : Nat) (e : String),
      w.getEnvironment p i = Except.error e →
      w2.getEnvironment p i = Except.ok ⟨none⟩ →
        (get_environment_last_deployment w p i).1
          = (get_environment_last_deployment w2 p i).1) ∧
    (∀ (w : ApiWorld) (p : Project) (tn e : String),
      w.listTags p tn = Except.error e →
        (get_tag_creation_date w p tn).1 = none ∧
        (get_tag_creation_date w p tn).2 ≠ []) ∧
    (∀ (w w2 : ApiWorld) (p : Project) (tn e : String),
      w.listTags p tn = Except.error e →
      w2.listTags p tn = Except.ok [] →
        (get_tag_creation_date w p tn).1 = (get_tag_creation_date w2 p tn).1) ∧
    (∀ (p : Project) (e : String),
      (get_production_environments p (Except.error e)).1 = [] ∧
      (get_production_environments p (Except.error e)).2 ≠ []) ∧
    (∀ (w : ApiWorld) (p : Project) (e : String),
      w.listEnvironments p = Except.error e → (processProject w p).2 = none) ∧
    (∀ (args : Args) (w : ApiWorld) (ps : List Project),
      w.auth = Except.ok () → args.project = none →
      w.listProjects = Except.ok ps → (mainRun args w).2 = 0) := by
  refine ⟨?_, ?_, ?_, ?_, ?_, ?_, ?_⟩
  · intro w p i e h
    simp [get_environment_last_deployment, h]
  · intro w w2 p i e h h2
    simp [get_environment_last_deployment, h, h2]
  · intro w p tn e h
    simp [get_tag_creation_date, h]
  · intro w w2 p tn e h h2
    simp [get_tag_creation_date, h, h2, findTagCreated]
  · intro p e
    simp [get_production_environments]
  · intro w p e h
    simp [processProject, get_production_environments, h]
  · intro args w ps h1 h2 h3
    simp [mainRun, h1, h2, h3]

/-- Witness for C7 at a concrete failing world. -/
theorem spec_c7_witness :
    (get_environment_last_deployment wErr prj0 1).1 = none ∧
    (get_environment_last_deployment wErr prj0 1).2 ≠ [] :=
  spec_c7.1 wErr prj0 1 "boom" rfl

/-- C9: two runs over the same API responses that differ only in the parsed
tag argument produce identical output and identical exit status; the tag
value is never consulted after parsing. -/
theorem spec_c9 (a : Args) (w : ApiWorld) (t1 t2 : Option String) :
    mainRun { a with tag := t1 } w = mainRun { a with tag := t2 } w := rfl

/-- Witness for C9 at a concrete world and tag pair. -/
theorem spec_c9_witness :
    mainRun ⟨"u", "t", none, some "v1.2.3"⟩ wEmpty
      = mainRun ⟨"u", "t", none, none⟩ wEmpty :=
  spec_c9 ⟨"u", "t", none, none⟩ wEmpty (some "v1.2.3") none

/-- C10: the CSV row is the plain comma join of its fields, so splitting a
row on commas recovers exactly 2 + 3N fields iff no field contains a comma,
and an environment name containing a comma inflates the split count past
2 + 3N. -/
theorem spec_c10 :
    (∀ (g pn : String) (e : List DeploymentInfo),
      (splitCommas (format_csv_row g pn e).data).length = 2 + 3 * e.length ↔
        ∀ f ∈ csv_row_list g pn e, ',' ∉ f.data) ∧
    (splitCommas (format_csv_row "g" "p" [⟨"prod,uction", "d", "t"⟩]).data).length = 6 ∧
    2 + 3 * 1 < 6 := by
  refine ⟨?_, by decide, by decide⟩
  intro g pn e
  have hne : csv_row_list g pn e ≠ [] := by
    rw [csv_row_list_eq]; simp
  have hlen := csv_row_list_length g pn e
  rw [format_csv_row, splitCommas_length, join_commas_count _ hne, hlen]
  constructor
  · intro h f hf
    have hsum : (List.map (fun s => s.data.count ',') (csv_row_list g pn e)).sum = 0 := by
      omega
    have hz := List.sum_eq_zero_iff.mp hsum (f.data.count ',')
      (List.mem_map_of_mem _ hf)
    exact List.count_eq_zero.mp hz
  · intro h
    have hsum : (List.map (fun s => s.data.count ',') (csv_row_list g pn e)).sum = 0 := by
      apply List.sum_eq_zero_iff.mpr
      intro x hx
      obtain ⟨f, hf, rfl⟩ := List.mem_map.mp hx
      exact List.count_eq_zero.mpr (h f hf)
    omega

/-- Witness for C10 at a comma-free concrete row. -/
theorem spec_c10_witness :
    (splitCommas (format_csv_row "a" "b" [⟨"prod", "d", "t"⟩]).data).length = 2 + 3 * 1 :=
  (spec_c10.1 "a" "b" [⟨"prod", "d", "t"⟩]).mpr (by decide)

/-- C2 counterexample: in single-project mode with no matching production
environment, the run prints the notice but completes with exit status 0, not
the non-zero status the claim requires. -/
theorem spec_c2_counterexample :
    (⟨"u", "t", some "grp/proj", none⟩ : Args).project = some "grp/proj" ∧
    (mainRun ⟨"u", "t", some "grp/proj", none⟩ wNoProd).2 = 0 ∧
    "No production environments found for project grp/proj."
      ∈ (mainRun ⟨"u", "t", some "grp/proj", none⟩ wNoProd).1 :=
  ⟨rfl, by decide, by decide⟩

/-- C2 amended: in single-project mode with no matching production
environment, the caller is informed by a printed message, no CSV row is
emitted, and the run completes with exit status 0 (never a fatal exit). -/
theorem spec_c2_amended (args : Args) (w : ApiWorld) (pid : String) (p : Project)
    (h1 : args.project = some pid) (h2 : w.auth = Except.ok ())
    (h3 : w.getProject pid = Except.ok p)
    (h4 : (get_production_environments p (w.listEnvironments p)).1 = []) :
    (mainRun args w).2 = 0 ∧
    (mainRun args w).1
      = headerLine :: (get_production_environments p (w.listEnvironments p)).2 ∧
    (get_production_environments p (w.listEnvironments p)).2 ≠ [] := by
  have hproc : processProject w p
      = ((get_production_environments p (w.listEnvironments p)).2, none) := by
    simp [processProject, h4]
  refine ⟨?_, ?_, get_production_environments_empty_logs p _ h4⟩
  · simp [mainRun, h1, h2, h3]
  · simp [mainRun, h1, h2, h3, runProjects, hproc]

/-- Witness for C2 at a concrete single-project world with no production
environment. -/
theorem spec_c2_witness :
    (mainRun ⟨"u", "t", some "grp/proj", none⟩ wNoProd).2 = 0 ∧
    (mainRun ⟨"u", "t", some "grp/proj", none⟩ wNoProd).1
      = headerLine :: (get_production_environments prj0 (wNoProd.listEnvironments prj0)).2 ∧
    (get_production_environments prj0 (wNoProd.listEnvironments prj0)).2 ≠ [] :=
  spec_c2_amended ⟨"u", "t", some "grp/proj", none⟩ wNoProd "grp/proj" prj0
    rfl rfl rfl (by decide)

/-- C3 counterexample: with an invalid tag argument the program emits no
warning at all; the whole output is just the header, identical to the output
with a valid tag. -/
theorem spec_c3_counterexample :
    is_valid_tag_format "1.2.3" = false ∧
    (mainRun ⟨"u", "t", none, some "1.2.3"⟩ wEmpty).1 = [headerLine] ∧
    mainRun ⟨"u", "t", none, some "1.2.3"⟩ wEmpty
      = mainRun ⟨"u", "t", none, some "v1.2.3"⟩ wEmpty :=
  ⟨by decide, by decide, rfl⟩

/-- C3 amended: an invalid tag format never causes rejection and never skips
any logic, but no warning is emitted either: the run is identical to a run
without a tag argument, because the parsed tag is never consulted. -/
theorem spec_c3_amended (a : Args) (w : ApiWorld) (t : String)
    (h : is_valid_tag_format t = false) :
    mainRun { a with tag := some t } w = mainRun { a with tag := none } w := rfl

/-- Witness for C3 at a concrete invalid tag. -/
theorem spec_c3_witness :
    mainRun ⟨"u", "t", none, some "not-a-tag"⟩ wNoProd
      = mainRun ⟨"u", "t", none, none⟩ wNoProd :=
  spec_c3_amended ⟨"u", "t", none, none⟩ wNoProd "not-a-tag" (by decide)

/-- C4: once the connection succeeds, the header is the first output line;
a CSV row consists of the comma join of exactly 2 + 3N fields for N matched
environments; a project whose production selection is empty contributes no
row; and every emitted row comes from a nonempty environment-data list with
one triple per matched environment. -/
theorem spec_c4 :
    (∀ (args : Args) (w : ApiWorld), w.auth = Except.ok () →
      (mainRun args w).1.head? = some headerLine) ∧
    (∀ (g pn : String) (e : List DeploymentInfo),
      format_csv_row g pn e = join_commas (csv_row_list g pn e) ∧
      (csv_row_list g pn e).length = 2 + 3 * e.length) ∧
    (∀ (w : ApiWorld) (p : Project),
      (get_production_environments p (w.listEnvironments p)).1 = [] →
      (processProject w p).2 = none) ∧
    (∀ (w : ApiWorld) (p : Project) (row : String),
      (processProject w p).2 = some row →
      ∃ env_data : List DeploymentInfo,
        env_data ≠ [] ∧
        env_data.length
          = (get_production_environments p (w.listEnvironments p)).1.length ∧
        row = format_csv_row (p.namespace_name.getD "") p.name env_data) := by
  refine ⟨?_, ?_, ?_, ?_⟩
  · intro args w h
    simp only [mainRun, h]
    cases hp : args.project with
    | none => cases hl : w.listProjects <;> simp [hl]
    | some pid => cases hg : w.getProject pid <;> simp [hg]
  · intro g pn e
    exact ⟨rfl, csv_row_list_length g pn e⟩
  · intro w p h
    simp [processProject, h]
  · intro w p row h
    simp only [processProject] at h
    split at h
    · exact absurd h (by simp)
    · rename_i hne
      split at h
      · exact absurd h (by simp)
      · rename_i hne2
        refine ⟨((get_production_environments p
            (w.listEnvironments p)).1.map (get_deployment_info w p)).map Prod.fst,
          ?_, ?_, ?_⟩
        · intro hnil
          rw [hnil] at hne2
          simp at hne2
        · simp
        · exact (Option.some.inj h).symm

/-- Witness for C4 at a concrete successful world. -/
theorem spec_c4_witness :
    (mainRun ⟨"u", "t", none, none⟩ wProd).1.head? = some headerLine :=
  spec_c4.1 ⟨"u", "t", none, none⟩ wProd rfl

/-- C8: the per-environment report entry always carries the environment
name; an absent deployment leaves both timestamp fields as empty strings; a
present deployment with an absent tag lookup leaves exactly the tag field
empty; and all three fields occupy their own CSV columns in the row. -/
theorem spec_c8 (w : ApiWorld) (p : Project) (env : Env) :
    ((get_deployment_info w p env).1).env_name = env.name ∧
    ((get_environment_last_deployment w p env.id).1 = none →
      (get_deployment_info w p env).1 = ⟨env.name, "", ""⟩) ∧
    (∀ d, (get_environment_last_deployment w p env.id).1 = some d →
      (get_tag_creation_date w p d.ref).1 = none →
      (get_deployment_info w p env).1 = ⟨env.name, d.created_at, ""⟩) ∧
    (∀ g pn, csv_row_list g pn [(get_deployment_info w p env).1]
      = [g, pn, ((get_deployment_info w p env).1).env_name,
          ((get_deployment_info w p env).1).deploy_created_at,
          ((get_deployment_info w p env).1).tag_created_at]) := by
  have h4 : ∀ (g pn : String) (i : DeploymentInfo),
      csv_row_list g pn [i] = [g, pn, i.env_name, i.deploy_created_at, i.tag_created_at] :=
    fun g pn i => rfl
  rcases hld : get_environment_last_deployment w p env.id with ⟨opt, logs⟩
  cases opt with
  | none =>
    have hval : (get_deployment_info w p env).1 = ⟨env.name, "", ""⟩ := by
      simp [get_deployment_info, hld]
    refine ⟨by rw [hval], fun _ => hval, ?_, fun g pn => h4 g pn _⟩
    intro d hd
    exact absurd hd (by simp)
  | some d =>
    rcases htag : get_tag_creation_date w p d.ref with ⟨topt, tlogs⟩
    have hname : ((get_deployment_info w p env).1).env_name = env.name := by
      cases topt with
      | none => simp [get_deployment_info, hld, htag]
      | some t =>
        by_cases ht : t.isEmpty <;> simp [get_deployment_info, hld, htag, ht]
    refine ⟨hname, ?_, ?_, fun g pn => h4 g pn _⟩
    · intro hnone
      exact absurd hnone (by simp)
    · intro d2 hd2 htag2
      have hdd : d = d2 := by simpa using hd2
      subst hdd
      rw [htag] at htag2
      have htopt : topt = none := htag2
      subst htopt
      simp [get_deployment_info, hld, htag]

/-- Witness for C8 at a concrete environment with no deployment. -/
theorem spec_c8_witness :
    (get_deployment_info wNoProd prj0 ⟨1, "production"⟩).1 = ⟨"production", "", ""⟩ :=
  (spec_c8 wNoProd prj0 ⟨1, "production"⟩).2.1 (by decide)
